import Mathlib

set_option synthInstance.maxSize 1000

/-!
A verification development for the xenforo-links-archive service
(`src/main.py`).  The Python source is shallowly embedded: strings are
`List Char` (`Str`), Python's `str` operations (`in`, `replace`, `strip`,
`split`, `sorted`, `int(...)`) are modelled by executable functions below,
the sqlite tables are lists of row records, the global in-memory
deduplication set `all_urls` is a list of key/url pairs, and Python
exceptions (`ValueError`, `IndexError`, `sqlite3.OperationalError`,
`sqlite3.ProgrammingError`) are the error values of an `Except`.
-/

/-- Python strings, modelled as their list of characters. -/
abbrev Str := List Char

/-- Characters of a Lean string literal, used to write `Str` constants. -/
def str (s : String) : Str := s.data

/-- Python `str.strip()` whitespace test (ASCII whitespace; Python also
strips further unicode whitespace, which no claim exercises). -/
def isPySpace (c : Char) : Bool :=
  c = ' ' ∨ c = '\t' ∨ c = '\n' ∨ c = '\r' ∨ c = '\x0b' ∨ c = '\x0c'

/-- ASCII decimal digit test (`'0'` to `'9'`), as accepted by Python
`int(...)` for each digit position. -/
def isDig (c : Char) : Bool := 48 ≤ c.toNat ∧ c.toNat ≤ 57

/-- Numeric value of an ASCII digit character. -/
def digitVal (c : Char) : Nat := c.toNat - 48

/-- The ASCII digit character for a value below ten. -/
def digitChar (n : Nat) : Char := Char.ofNat (48 + n)

/-- Python `s.strip()`: remove leading and trailing whitespace. -/
def pyStrip (s : Str) : Str :=
  ((s.dropWhile isPySpace).reverse.dropWhile isPySpace).reverse

/-- Python `pat in s`: substring occurrence test. -/
def strContains (s pat : Str) : Bool :=
  s.tails.any fun t => pat.isPrefixOf t

/-- Worker for `pyReplaceDel`: delete every (leftmost, non-overlapping)
occurrence of the non-empty pattern `p :: ps`.  The scan consumes at
least one character of `s` per step; `fuel` bounds the number of steps
(structurally, so that the function computes by kernel reduction) and is
always supplied as `s.length`, which the scan cannot exhaust. -/
def removeAllF (p : Char) (ps : Str) (fuel : Nat) (s : Str) : Str :=
  match s, fuel with
  | [], _ => []
  | c :: rest, 0 => c :: rest
  | c :: rest, fuel + 1 =>
    if (p :: ps).isPrefixOf (c :: rest) then
      removeAllF p ps fuel (rest.drop ps.length)
    else c :: removeAllF p ps fuel rest

def removeAll (p : Char) (ps : Str) (s : Str) : Str :=
  removeAllF p ps s.length s

/-- Python `s.replace(pat, "")` for a non-empty `pat` (all our patterns,
`"post-"` and `"page-"`, are non-empty; Python's behaviour for an empty
pattern is never exercised). -/
def pyReplaceDel (s pat : Str) : Str :=
  match pat with
  | [] => s
  | p :: ps => removeAll p ps s

/-- Split a character list on a separator character; mirrors Python
`s.split(sep)` (and `s.rsplit(sep)` without a maxsplit, which yields the
same pieces). Always returns at least one piece. -/
def splitOnChar (sep : Char) : Str → List Str
  | [] => [[]]
  | c :: rest =>
    match splitOnChar sep rest with
    | [] => [[]]
    | h :: t => if c = sep then [] :: h :: t else (c :: h) :: t

/-- Decimal value of a digit string, most significant digit first. -/
def digitsToNat (l : List Char) : Nat :=
  l.foldl (fun a c => a * 10 + digitVal c) 0

/-- Python `int(s)` on a string: strips surrounding whitespace, accepts an
optional sign followed by one or more ASCII digits, and fails (raises
`ValueError`, here `none`) otherwise.  (Python additionally accepts
underscore digit grouping and unicode digits; no claim exercises those.)
`pyIntCore` handles the already-stripped string. -/
def pyIntCore : Str → Option Int
  | [] => none
  | c :: cs =>
    if c = '+' then
      if cs ≠ [] ∧ cs.all isDig then some ((digitsToNat cs : Nat) : Int) else none
    else if c = '-' then
      if cs ≠ [] ∧ cs.all isDig then some (-((digitsToNat cs : Nat) : Int)) else none
    else
      if (c :: cs).all isDig then some ((digitsToNat (c :: cs) : Nat) : Int) else none

def pyInt (s : Str) : Option Int := pyIntCore (pyStrip s)

/-- Decimal digit characters of a natural number, most significant
first.  `fuel` bounds the recursion structurally (each step divides by
ten) and is always supplied as `n + 1`, which cannot be exhausted. -/
def natDigitsF : Nat → Nat → List Char
  | 0, _ => []
  | fuel + 1, n =>
    if n < 10 then [digitChar n]
    else natDigitsF fuel (n / 10) ++ [digitChar (n % 10)]

def natDigits (n : Nat) : List Char := natDigitsF (n + 1) n

/-- Python `str(i)` for an integer: decimal digits, `'-'`-prefixed when
negative. -/
def pyStr (i : Int) : Str :=
  if i < 0 then '-' :: natDigits (-i).toNat else natDigits i.toNat

/-- Python `sorted(urls)`: strings are compared lexicographically by code
point, which is the lexicographic `List Char` order. -/
def pySort (urls : List Str) : List Str :=
  List.insertionSort (fun a b : Str => a ≤ b) urls

/-- A parsed URL as exposed by `yarl.URL` to `main.py`: host, the path
segments after the leading root segment, the query string (empty when
absent) and the fragment (empty when absent). -/
structure Url where
  host : Str
  segs : List Str
  query : Str
  fragment : Str
deriving DecidableEq, Repr

/-- `yarl.URL.parts`: the root segment `"/"` followed by the path
segments. -/
def Url.parts (u : Url) : List Str := ['/'] :: u.segs

/-- `yarl.URL.path`: `"/"`-joined path with a leading slash. -/
def Url.path (u : Url) : Str := '/' :: List.intercalate ['/'] u.segs

/-- `yarl.URL.path_qs`: path plus `"?" + query` when a query is present. -/
def Url.path_qs (u : Url) : Str :=
  u.path ++ (if u.query = [] then [] else '?' :: u.query)

/-- `str(origin)` for an https origin URL: scheme, host, path, query and
fragment. -/
def Url.toStr (u : Url) : Str :=
  str "https://" ++ u.host ++ u.path_qs ++
    (if u.fragment = [] then [] else '#' :: u.fragment)

/-- Path segments of a serialized path (everything after the leading
`'/'`), as `yarl` re-derives them when a URL string is parsed. -/
def pathSegs (p : Str) : List Str :=
  let r := p.drop 1
  if r = [] then [] else splitOnChar '/' r

/-- Re-parse a serialized `path_qs` string into path segments and query,
as `yarl.URL("https://" + host + path_qs)` does: the query starts at the
first `'?'`; the path is split on `'/'`. -/
def parsePathQs (s : Str) : List Str × Str :=
  match splitOnChar '?' s with
  | [] => ([], [])
  | p :: qs => (pathSegs p, List.intercalate ['?'] qs)

/-- A `Url` is well formed when serializing its path and query and parsing
them back is the identity (true of every URL produced by `yarl`'s parser:
segments then contain no `'/'` or `'?'`), and its host contains no
delimiter character. -/
def Url.wf (u : Url) : Prop :=
  parsePathQs u.path_qs = (u.segs, u.query) ∧
  u.host ≠ [] ∧
  ∀ c ∈ u.host, ¬ (c = '/' ∨ c = '?' ∨ c = '#' ∨ c = ':' ∨ c = '@')

instance (u : Url) : Decidable u.wf := by
  unfold Url.wf
  infer_instance

/-- Python exceptions that `main.py` can raise: `ValueError` (raised by
`ForumThread.from_url`, by `int(...)` and by tuple unpacking, and caught
by `save_data` / `get_urls_by_origin`), `IndexError` (raised by a
sequence index out of range, never caught), and the `sqlite3` errors
`OperationalError` (e.g. `no such column`) and `ProgrammingError`
(placeholder/parameter count mismatch), never caught. -/
inductive PyErr where
  | valueError
  | indexError
  | operationalError
  | programmingError
deriving DecidableEq, Repr

/-- `THREAD_PARTS = "threads", "topic"` (line 55). -/
def THREAD_PARTS : List Str := [str "threads", str "topic"]

/-- The `ForumThread` dataclass (lines 58-66).  `post_number` and
`path_qs` are declared with `compare=False, hash=False`, so they take no
part in the generated equality and hash. -/
structure ForumThread where
  host : Str
  name : Str
  id_ : Int
  page : Int := 1
  thread_path : Str := ['/']
  post_number : Option Int := none
  path_qs : Str := []
deriving DecidableEq, Repr

/-- The tuple of fields the generated dataclass `__eq__` and `__hash__`
compare: every field except the `compare=False, hash=False` ones
(`post_number`, `path_qs`), in declaration order. -/
def ForumThread.key (t : ForumThread) : Str × Str × Int × Int × Str :=
  (t.host, t.name, t.id_, t.page, t.thread_path)

/-- The dataclass-generated `ForumThread.__eq__`. -/
def ForumThread.pyEq (t1 t2 : ForumThread) : Bool :=
  t1.key = t2.key

/-- `ForumThread.as_tuple` (lines 68-70) as the sqlite parameter list
`(host, name, id_, page, post_number, path_qs)`. -/
inductive SqlVal where
  | s (v : Str)
  | i (v : Int)
  | nul
deriving DecidableEq, Repr

def ForumThread.as_tuple (t : ForumThread) : List SqlVal :=
  [.s t.host, .s t.name, .i t.id_, .i t.page,
   (match t.post_number with | some n => .i n | none => .nul), .s t.path_qs]

/-- The marker found by `next(part for part in THREAD_PARTS if part in
url.parts)` (line 92): `"threads"` is preferred because it is tried
first. -/
def foundPart (parts : List Str) : Str :=
  if parts.contains (str "threads") then str "threads" else str "topic"

/-- `name_index = url.parts.index(found_part) + 1` (line 93). -/
def nameIndex (parts : List Str) : Nat := parts.indexOf (foundPart parts) + 1

/-- Lines 98-102: scan the fragment and all path parts for a section
containing `"post-"`; parse the section with `"post-"` deleted and
whitespace stripped as an integer.  Python iterates the *set*
`{url.fragment, *url.parts}` in unspecified order; the scan is modelled
fragment-first (theorems that depend on which candidate wins assume there
is at most one). -/
def parsePost (fragment : Str) (parts : List Str) : Except PyErr (Option Int) :=
  match (fragment :: parts).find? (fun sec => strContains sec (str "post-")) with
  | none => .ok none
  | some ps =>
    match pyInt (pyStrip (pyReplaceDel ps (str "post-"))) with
    | none => .error .valueError
    | some n => .ok (some n)

/-- Lines 104-106: if the part after the name segment contains `"page-"`,
parse it (with `"page-"` deleted, stripped) as the page number, else 1. -/
def parsePage (parts : List Str) (name_index : Nat) : Except PyErr Int :=
  if parts.length > name_index + 1 ∧
      strContains (parts.getD (name_index + 1) []) (str "page-") then
    match pyInt (pyStrip (pyReplaceDel (parts.getD (name_index + 1) []) (str "page-"))) with
    | none => .error .valueError
    | some p => .ok p
  else .ok 1

/-- Lines 108-110: `name, id_ = name.rsplit(".")` — note: *no* maxsplit,
so the unpack raises `ValueError` unless the split yields exactly two
pieces — then `name = name.strip()` and `id_ = int(id_.strip())`. -/
def parseNameId (name0 : Str) : Except PyErr (Str × Int) :=
  match splitOnChar '.' name0 with
  | [a, b] =>
    match pyInt (pyStrip b) with
    | none => .error .valueError
    | some k => .ok (pyStrip a, k)
  | _ => .error .valueError

/-- The body of `ForumThread.from_url` (lines 84-121), over the four URL
attributes the Python code reads: `url.host`, `url.parts`,
`url.fragment` and `url.path_qs`. -/
def fromParts (host : Str) (parts : List Str) (fragment path_qs : Str) :
    Except PyErr ForumThread :=
  if host = [] ∨ ¬ (THREAD_PARTS.any fun p => parts.contains p) then
    .error .valueError
  else
    match parts.get? (nameIndex parts) with
    | none => .error .indexError
    | some name0 =>
      if strContains name0 (str ".") = false then .error .valueError
      else
        match parsePost fragment parts with
        | .error e => .error e
        | .ok post_number =>
          match parsePage parts (nameIndex parts) with
          | .error e => .error e
          | .ok page =>
            match parseNameId name0 with
            | .error e => .error e
            | .ok (nm, idv) =>
              .ok { host := host, name := nm, id_ := idv, page := page,
                    thread_path :=
                      '/' :: List.intercalate ['/'] ((parts.drop 1).take (nameIndex parts)),
                    post_number := post_number,
                    path_qs := path_qs }

/-- `ForumThread.from_url` (lines 84-121). -/
def ForumThread.from_url (u : Url) : Except PyErr ForumThread :=
  fromParts u.host u.parts u.fragment u.path_qs

/-- The `ForumThread.url` property (lines 72-77): build
`URL("https://" + host + path_qs)` and attach the fragment
`post-{post_number}` when `post_number` is truthy (`None` and `0` are
both falsy in Python). -/
def ForumThread.url (t : ForumThread) : Url :=
  let pq := parsePathQs t.path_qs
  { host := t.host, segs := pq.1, query := pq.2,
    fragment :=
      match t.post_number with
      | some n => if n ≠ 0 then str "post-" ++ pyStr n else []
      | none => [] }

/-- A row of the `forum_threads` table, with the columns `init_db`
creates (lines 239-251). -/
structure FRow where
  host : Str
  name : Str
  id_ : Int
  page : Int
  post : Option Int
  path_qs : Str
  url : Str
  date : Str
deriving DecidableEq, Repr

/-- A row of the `other_urls` table (lines 253-260). -/
structure ORow where
  origin : Str
  url : Str
  date : Str
deriving DecidableEq, Repr

/-- The column names of `forum_threads` as created by `init_db`
(lines 239-251).  Note there is no `path` column. -/
def forumSchema : List Str :=
  [str "host", str "name", str "id", str "page", str "post", str "url",
   str "date", str "path_qs"]

/-- Value of a `forum_threads` column on a row, by column name. -/
def FRow.col (r : FRow) (c : Str) : SqlVal :=
  if c = str "host" then .s r.host
  else if c = str "name" then .s r.name
  else if c = str "id" then .i r.id_
  else if c = str "page" then .i r.page
  else if c = str "post" then (match r.post with | some n => .i n | none => .nul)
  else if c = str "url" then .s r.url
  else if c = str "date" then .s r.date
  else if c = str "path_qs" then .s r.path_qs
  else .nul

/-- `INSERT OR IGNORE INTO forum_threads ...` under the table's
`UNIQUE(host, name, page, url)` constraint: a row whose key already
exists is silently skipped (no error, `inserted = false`); otherwise the
row is appended. -/
def insertForum (tbl : List FRow) (r : FRow) : List FRow × Bool :=
  if tbl.any (fun x => decide (x.host = r.host ∧ x.name = r.name ∧
      x.page = r.page ∧ x.url = r.url)) then
    (tbl, false)
  else (tbl ++ [r], true)

/-- `INSERT OR IGNORE INTO other_urls ...` under `UNIQUE(origin, url)`. -/
def insertOther (tbl : List ORow) (r : ORow) : List ORow × Bool :=
  if tbl.any (fun x => decide (x.origin = r.origin ∧ x.url = r.url)) then
    (tbl, false)
  else (tbl ++ [r], true)

/-- The process state touched by the handlers: the two sqlite tables and
the global in-memory set `all_urls` (line 31).  `all_urls` holds
`(ForumThread, url)` pairs; since the dataclass hash/equality compare
exactly the `ForumThread.key` fields, membership is modelled on keys. -/
structure St where
  forum : List FRow
  other : List ORow
  cache : List ((Str × Str × Int × Int × Str) × Str)
deriving DecidableEq, Repr

/-- Add a pair to the `all_urls` set (`set.add`: no effect when already
present). -/
def cacheAdd (c : List ((Str × Str × Int × Int × Str) × Str))
    (p : (Str × Str × Int × Int × Str) × Str) :
    List ((Str × Str × Int × Int × Str) × Str) :=
  if p ∈ c then c else c ++ [p]

/-- `_save_forum_thread_urls` (lines 132-149): snapshot the size of
`all_urls`, then for each url in sorted order skip it when
`(forum_thread, url)` is already cached, else insert the row (OR IGNORE)
and add the pair to the cache; return the cache growth.  `date_received`
is computed once per call and is passed in here as `date`. -/
def save_forum_thread_urls (ft : ForumThread) (urls : List Str) (date : Str)
    (st : St) : St × Nat :=
  let before := st.cache.length
  let st2 := (pySort urls).foldl (fun s url =>
    if (ft.key, url) ∈ s.cache then s
    else
      { s with
        forum := (insertForum s.forum
          { host := ft.host, name := ft.name, id_ := ft.id_, page := ft.page,
            post := ft.post_number, path_qs := ft.path_qs, url := url,
            date := date }).1,
        cache := cacheAdd s.cache (ft.key, url) }) st
  (st2, st2.cache.length - before)

/-- `_save_other_urls` (lines 152-163): snapshot the size of `all_urls`,
insert each url (OR IGNORE) into `other_urls` keyed by `str(origin)`,
and return the growth of `all_urls` — which this function never touches. -/
def save_other_urls (origin : Url) (urls : List Str) (date : Str)
    (st : St) : St × Nat :=
  let before := st.cache.length
  let st2 := (pySort urls).foldl (fun s url =>
    { s with other := (insertOther s.other
        { origin := origin.toStr, url := url, date := date }).1 }) st
  (st2, st2.cache.length - before)

/-- `save_data` (lines 124-129): try the thread path; `except ValueError`
falls back to the generic path.  Any other exception (e.g. `IndexError`)
escapes. -/
def save_data (origin : Url) (urls : List Str) (date : Str) (st : St) :
    Except PyErr (St × Nat) :=
  match ForumThread.from_url origin with
  | .ok ft => .ok (save_forum_thread_urls ft urls date st)
  | .error .valueError => .ok (save_other_urls origin urls date st)
  | .error e => .error e

/-- Python truthiness of the `page` argument at line 179 (`if page:`):
`None` and `0` are falsy. -/
def pageTruthy : Option Int → Bool
  | none => false
  | some p => p ≠ 0

/-- The WHERE columns of the SELECT built by `_get_forum_thread_urls`
(lines 178-181): `host`, `path`, `name`, plus `page` when the page
argument is truthy.  (`path` is not a column of `forum_threads`.) -/
def gftuCols (truthy : Bool) : List Str :=
  if truthy then [str "host", str "path", str "name", str "page"]
  else [str "host", str "path", str "name"]

/-- The parameters bound by `_get_forum_thread_urls` (lines 177-181):
`as_tuple[0:3]` without a truthy page, the whole six-element `as_tuple`
with one. -/
def gftuData (ft : ForumThread) (truthy : Bool) : List SqlVal :=
  if truthy then ft.as_tuple else ft.as_tuple.take 3

/-- `_get_forum_thread_urls` (lines 174-186).  `cursor.execute` first
prepares the statement — raising `sqlite3.OperationalError` when a
referenced column does not exist in the schema — then binds the
parameters, raising `sqlite3.ProgrammingError` when their number differs
from the number of placeholders; only then would the filtered `url`s be
returned. -/
def get_forum_thread_urls (ft : ForumThread) (page : Option Int) (st : St) :
    Except PyErr (List Str) :=
  let truthy := pageTruthy page
  let cols := gftuCols truthy
  let data := gftuData ft truthy
  if ¬ (cols.all fun c => forumSchema.contains c) then .error .operationalError
  else if cols.length ≠ data.length then .error .programmingError
  else .ok (((st.forum.filter fun r =>
      (cols.zip data).all fun cv => decide (r.col cv.1 = cv.2)).map (·.url)))

/-- `_get_other_urls` (lines 189-196): urls of the `other_urls` rows whose
`origin` equals `str(origin)`. -/
def get_other_urls (origin : Url) (st : St) : List Str :=
  (st.other.filter fun r => decide (r.origin = origin.toStr)).map (·.url)

/-- `get_urls_by_origin` (lines 166-171): the `try` block spans both the
parse and the forum query, so a `ValueError` from either falls back to
the generic query; other exceptions escape. -/
def get_urls_by_origin (origin : Url) (page : Option Int) (st : St) :
    Except PyErr (List Str) :=
  match ForumThread.from_url origin with
  | .ok ft =>
    match get_forum_thread_urls ft page st with
    | .error .valueError => .ok (get_other_urls origin st)
    | r => r
  | .error .valueError => .ok (get_other_urls origin st)
  | .error e => .error e

/-- The `/retrieve` endpoint (lines 226-233): FastAPI's
`page: int | None = Query(1, ge=1)` substitutes the default `1` when the
query parameter is omitted and rejects values below 1 before the handler
runs; the handler then calls `get_urls_by_origin(origin, page)`. -/
def retrieve_data (origin : Url) (pageParam : Option Int) (st : St) :
    Except PyErr (List Str) :=
  get_urls_by_origin origin (some (pageParam.getD 1)) st

/-- The sections scanned for a `post-` anchor, in the modelled scan order
(fragment first, then the parts), restricted to those containing
`"post-"`. -/
def postCandidates (u : Url) : List Str :=
  (u.fragment :: u.parts).filter fun sec => strContains sec (str "post-")

/-! ## Concrete instances used in counterexamples and witnesses -/

/-- The worked example origin of spec section 8:
`https://forum.example.com/threads/cool-topic.1234/page-2#post-99`. -/
def exThread : Url :=
  { host := str "forum.example.com",
    segs := [str "threads", str "cool-topic.1234", str "page-2"],
    query := [], fragment := str "post-99" }

/-- The identity `ForumThread.from_url` extracts from `exThread`. -/
def tEx : ForumThread :=
  { host := str "forum.example.com", name := str "cool-topic", id_ := 1234,
    page := 2, thread_path := str "/threads/cool-topic.1234",
    post_number := some 99, path_qs := str "/threads/cool-topic.1234/page-2" }

/-- A minimal thread origin, `https://f.com/threads/a.1`. -/
def exThreadBare : Url :=
  { host := str "f.com", segs := [str "threads", str "a.1"], query := [],
    fragment := [] }

/-- A generic (non-thread) origin, `https://example.com/links`. -/
def exGeneric : Url :=
  { host := str "example.com", segs := [str "links"], query := [],
    fragment := [] }

/-- A thread origin whose name segment holds two dots,
`https://h/threads/a.b.1`. -/
def exMultiDot : Url :=
  { host := str "h", segs := [str "threads", str "a.b.1"], query := [],
    fragment := [] }

/-- A thread origin with fragment `#post-0` and a path segment containing
`post-` whose remainder is not an integer:
`https://h/threads/a.1/xpost-y#post-0`. -/
def exPostZero : Url :=
  { host := str "h", segs := [str "threads", str "a.1", str "xpost-y"],
    query := [], fragment := str "post-0" }

/-- The identity `ForumThread.from_url` extracts from `exPostZero`. -/
def tPostZero : ForumThread :=
  { host := str "h", name := str "a", id_ := 1, page := 1,
    thread_path := str "/threads/a.1", post_number := some 0,
    path_qs := str "/threads/a.1/xpost-y" }

/-- The origin `https://h/threads/a.1`. -/
def uC3a : Url :=
  { host := str "h", segs := [str "threads", str "a.1"], query := [],
    fragment := [] }

/-- The origin `https://h/f/threads/a.1`. -/
def uC3b : Url :=
  { host := str "h", segs := [str "f", str "threads", str "a.1"], query := [],
    fragment := [] }

/-- The parse of `https://h/threads/a.1`. -/
def tC3a : ForumThread :=
  { host := str "h", name := str "a", id_ := 1, page := 1,
    thread_path := str "/threads/a.1", post_number := none,
    path_qs := str "/threads/a.1" }

/-- The parse of `https://h/f/threads/a.1`: same `(host, name, id, page)`
as `tC3a`, different `thread_path`. -/
def tC3b : ForumThread :=
  { host := str "h", name := str "a", id_ := 1, page := 1,
    thread_path := str "/f/threads/a.1", post_number := none,
    path_qs := str "/f/threads/a.1" }

/-- A stored forum row for thread `a.1` at page 2. -/
def exRow : FRow :=
  { host := str "f.com", name := str "a", id_ := 1, page := 2, post := none,
    path_qs := str "/threads/a.1/page-2",
    url := str "https://cdn.example.com/a.png", date := str "2026-01-01" }

/-- `exRow` with a different thread id and date but the same
`(host, name, page, url)` storage key. -/
def exRowOtherId : FRow :=
  { host := str "f.com", name := str "a", id_ := 999, page := 2, post := none,
    path_qs := str "/threads/a.999/page-2",
    url := str "https://cdn.example.com/a.png", date := str "2026-01-02" }

/-- A stored generic row. -/
def exORow : ORow :=
  { origin := str "https://example.com/links", url := str "https://a.example/x",
    date := str "2026-01-01" }

def exSt : St := { forum := [exRow], other := [], cache := [] }

def emptySt : St := { forum := [], other := [], cache := [] }

def exDate : Str := str "2026-02-03T00:00:00+00:00"

def exUrlA : Str := str "https://a.example/x"

def exUrlB : Str := str "https://b.example/y"

/-! ## Helper lemmas about the string primitives -/

theorem dropWhile_eq_self_of_head (p : Char → Bool) (s : Str)
    (h : ∀ c ∈ s, p c = false) : s.dropWhile p = s := by
  cases s with
  | nil => rfl
  | cons a l =>
    simp [List.dropWhile, h a (by simp)]

theorem pyStrip_eq_self (s : Str) (h : ∀ c ∈ s, isPySpace c = false) :
    pyStrip s = s := by
  unfold pyStrip
  rw [dropWhile_eq_self_of_head _ _ h,
      dropWhile_eq_self_of_head _ _ (by intro c hc; exact h c (by simpa using hc)),
      List.reverse_reverse]

theorem isDig_not_space (c : Char) (h : isDig c = true) : isPySpace c = false := by
  unfold isPySpace
  rw [decide_eq_false_iff_not]
  rintro (rfl | rfl | rfl | rfl | rfl | rfl) <;> exact absurd h (by decide)

theorem isDig_ne_plus (c : Char) (h : isDig c = true) : ¬ c = '+' := by
  rintro rfl
  simp [isDig] at h

theorem isDig_ne_minus (c : Char) (h : isDig c = true) : ¬ c = '-' := by
  rintro rfl
  simp [isDig] at h

theorem digitChar_spec (k : Nat) (hk : k < 10) :
    isDig (digitChar k) = true ∧ digitVal (digitChar k) = k := by
  interval_cases k <;> exact ⟨by decide, by decide⟩

theorem digitsToNat_append (l : List Char) (c : Char) :
    digitsToNat (l ++ [c]) = digitsToNat l * 10 + digitVal c := by
  simp [digitsToNat, List.foldl_append]

theorem natDigitsF_spec : ∀ (fuel n : Nat), n < fuel →
    natDigitsF fuel n ≠ [] ∧ (∀ c ∈ natDigitsF fuel n, isDig c = true) ∧
      digitsToNat (natDigitsF fuel n) = n := by
  intro fuel
  induction fuel with
  | zero => exact fun n h => absurd h (Nat.not_lt_zero n)
  | succ f ih =>
    intro n hn
    simp only [natDigitsF]
    by_cases h : n < 10
    · rw [if_pos h]
      refine ⟨by simp, ?_, ?_⟩
      · intro c hc
        simp only [List.mem_singleton] at hc
        subst hc
        exact (digitChar_spec n h).1
      · simp [digitsToNat, (digitChar_spec n h).2]
    · rw [if_neg h]
      have hlt : n / 10 < n := Nat.div_lt_self (by omega) (by omega)
      obtain ⟨_, hdig, hval⟩ := ih (n / 10) (by omega)
      refine ⟨by simp, ?_, ?_⟩
      · intro c hc
        rcases List.mem_append.1 hc with hc | hc
        · exact hdig c hc
        · simp only [List.mem_singleton] at hc
          subst hc
          exact (digitChar_spec (n % 10) (Nat.mod_lt n (by omega))).1
      · rw [digitsToNat_append, hval,
            (digitChar_spec (n % 10) (Nat.mod_lt n (by omega))).2]
        omega

theorem natDigits_spec (n : Nat) :
    natDigits n ≠ [] ∧ (∀ c ∈ natDigits n, isDig c = true) ∧
      digitsToNat (natDigits n) = n :=
  natDigitsF_spec (n + 1) n (by omega)

theorem pyStr_chars (i : Int) (c : Char) (hc : c ∈ pyStr i) :
    isDig c = true ∨ c = '-' := by
  unfold pyStr at hc
  split at hc
  · rcases List.mem_cons.1 hc with rfl | hc
    · exact Or.inr rfl
    · exact Or.inl ((natDigits_spec _).2.1 c hc)
  · exact Or.inl ((natDigits_spec _).2.1 c hc)

theorem pyStrip_pyStr (i : Int) : pyStrip (pyStr i) = pyStr i := by
  apply pyStrip_eq_self
  intro c hc
  rcases pyStr_chars i c hc with h | rfl
  · exact isDig_not_space c h
  · decide

theorem pyInt_pyStr (i : Int) : pyInt (pyStr i) = some i := by
  unfold pyInt
  rw [pyStrip_pyStr]
  by_cases hneg : i < 0
  · simp only [pyStr, hneg, if_true]
    have hne := (natDigits_spec (-i).toNat).1
    have hdig := (natDigits_spec (-i).toNat).2.1
    have hval := (natDigits_spec (-i).toNat).2.2
    rw [pyIntCore]
    have h1 : ¬ ('-' = '+') := by decide
    rw [if_neg h1, if_pos rfl,
        if_pos ⟨hne, List.all_eq_true.2 fun c hc => hdig c hc⟩, hval]
    congr 1
    omega
  · simp only [pyStr, hneg, if_false]
    have hne := (natDigits_spec i.toNat).1
    have hdig := (natDigits_spec i.toNat).2.1
    have hval := (natDigits_spec i.toNat).2.2
    match hd : natDigits i.toNat with
    | [] => exact absurd hd hne
    | c :: cs =>
      rw [hd] at hdig hval
      have hc : isDig c = true := hdig c (by simp)
      rw [pyIntCore, if_neg (isDig_ne_plus c hc), if_neg (isDig_ne_minus c hc),
          if_pos (List.all_eq_true.2 fun x hx => hdig x hx), hval]
      congr 1
      omega

theorem strContains_cons_false (c : Char) (rest pat : Str)
    (h : strContains (c :: rest) pat = false) :
    pat.isPrefixOf (c :: rest) = false ∧ strContains rest pat = false := by
  simp only [strContains, List.tails, List.any_cons, Bool.or_eq_false_iff] at h ⊢
  exact h

theorem strContains_append_left (pat s : Str) : strContains (pat ++ s) pat = true := by
  simp only [strContains, List.any_eq_true]
  exact ⟨pat ++ s, by simp [List.mem_tails], by
    simp [List.isPrefixOf_iff_prefix]⟩

theorem strContains_false_of_not_mem (p : Char) (ps s : Str) (h : p ∉ s) :
    strContains s (p :: ps) = false := by
  induction s with
  | nil => rfl
  | cons c rest ih =>
    simp only [strContains, List.tails, List.any_cons, Bool.or_eq_false_iff]
    constructor
    · simp only [List.isPrefixOf, Bool.and_eq_false_iff]
      left
      have : ¬ p = c := fun hpc => h (hpc ▸ List.mem_cons_self c rest)
      simp [beq_eq_false_iff_ne, this]
    · exact ih fun hm => h (List.mem_cons_of_mem c hm)

theorem removeAllF_fuel (p : Char) (ps : Str) :
    ∀ (f1 f2 : Nat) (s : Str), s.length ≤ f1 → s.length ≤ f2 →
      removeAllF p ps f1 s = removeAllF p ps f2 s := by
  intro f1
  induction f1 with
  | zero =>
    intro f2 s h1 h2
    have hs : s = [] := List.eq_nil_of_length_eq_zero (Nat.le_zero.mp h1)
    subst hs
    cases f2 <;> rfl
  | succ f1 ih =>
    intro f2 s h1 h2
    cases s with
    | nil => cases f2 <;> rfl
    | cons c rest =>
      cases f2 with
      | zero => simp at h2
      | succ f2 =>
        simp only [removeAllF]
        have hdl : (rest.drop ps.length).length = rest.length - ps.length :=
          List.length_drop ps.length rest
        simp only [List.length_cons] at h1 h2
        by_cases hp : (p :: ps).isPrefixOf (c :: rest) = true
        · rw [if_pos hp, if_pos hp]
          exact ih f2 _ (by omega) (by omega)
        · rw [if_neg (by simp [hp]), if_neg (by simp [hp])]
          rw [ih f2 rest (by omega) (by omega)]

theorem removeAllF_eq_self (p : Char) (ps : Str) :
    ∀ (fuel : Nat) (s : Str), s.length ≤ fuel →
      strContains s (p :: ps) = false → removeAllF p ps fuel s = s := by
  intro fuel
  induction fuel with
  | zero =>
    intro s h1 _
    have hs : s = [] := List.eq_nil_of_length_eq_zero (Nat.le_zero.mp h1)
    subst hs
    rfl
  | succ f ih =>
    intro s h1 h2
    cases s with
    | nil => rfl
    | cons c rest =>
      obtain ⟨hpre, hrest⟩ := strContains_cons_false c rest (p :: ps) h2
      simp only [removeAllF]
      rw [if_neg (by simp [hpre])]
      simp only [List.length_cons] at h1
      rw [ih rest (by omega) hrest]

theorem removeAll_eq_self (p : Char) (ps s : Str)
    (h : strContains s (p :: ps) = false) : removeAll p ps s = s :=
  removeAllF_eq_self p ps s.length s (Nat.le_refl _) h

theorem removeAll_append (p : Char) (ps s : Str) :
    removeAll p ps ((p :: ps) ++ s) = removeAll p ps s := by
  unfold removeAll
  have hpre : (p :: ps).isPrefixOf (p :: (ps ++ s)) = true := by
    simp [List.isPrefixOf_iff_prefix]
  simp only [List.cons_append, List.length_cons, removeAllF]
  rw [if_pos (by simp [hpre])]
  simp only [List.append_eq]
  rw [List.drop_left]
  exact removeAllF_fuel p ps _ _ s (by simp) (Nat.le_refl _)

theorem pyReplaceDel_post_pyStr (n : Int) :
    pyReplaceDel (str "post-" ++ pyStr n) (str "post-") = pyStr n := by
  have hmem : 'p' ∉ pyStr n := by
    intro hm
    rcases pyStr_chars n 'p' hm with h | h
    · exact absurd h (by decide)
    · exact absurd h (by decide)
  show removeAll 'p' (str "ost-") (str "post-" ++ pyStr n) = pyStr n
  have : str "post-" = 'p' :: str "ost-" := rfl
  rw [this, removeAll_append,
      removeAll_eq_self _ _ _ (strContains_false_of_not_mem _ _ _ hmem)]

/-! ## Lemmas about the parsing steps -/

theorem parsePost_error (f : Str) (p : List Str) (e : PyErr)
    (h : parsePost f p = .error e) : e = .valueError := by
  unfold parsePost at h
  cases hf : (f :: p).find? (fun sec => strContains sec (str "post-")) with
  | none => rw [hf] at h; simp at h
  | some s =>
    rw [hf] at h
    simp only [] at h
    cases hp : pyInt (pyStrip (pyReplaceDel s (str "post-"))) <;> rw [hp] at h <;>
      simp_all

theorem parsePage_error (p : List Str) (i : Nat) (e : PyErr)
    (h : parsePage p i = .error e) : e = .valueError := by
  unfold parsePage at h
  split at h
  · cases hp : pyInt (pyStrip (pyReplaceDel (p.getD (i + 1) []) (str "page-"))) <;>
      rw [hp] at h <;> simp_all
  · simp at h

theorem parseNameId_error (name0 : Str) (e : PyErr)
    (h : parseNameId name0 = .error e) : e = .valueError := by
  unfold parseNameId at h
  split at h
  · cases hp : pyInt (pyStrip _) <;> rw [hp] at h <;> simp_all
  · simp_all

theorem parsePost_none_inv (f : Str) (p : List Str)
    (h : parsePost f p = .ok none) :
    ∀ sec ∈ f :: p, strContains sec (str "post-") = false := by
  unfold parsePost at h
  cases hf : (f :: p).find? (fun sec => strContains sec (str "post-")) with
  | none =>
    intro sec hs
    have := List.find?_eq_none.mp hf sec hs
    simpa using this
  | some s =>
    rw [hf] at h
    simp only [] at h
    cases hp : pyInt (pyStrip (pyReplaceDel s (str "post-"))) <;> rw [hp] at h <;>
      simp at h

theorem parsePost_no_candidates (f : Str) (p : List Str)
    (h : ∀ sec ∈ f :: p, strContains sec (str "post-") = false) :
    parsePost f p = .ok none := by
  unfold parsePost
  rw [List.find?_eq_none.mpr fun x hx => by simp [h x hx]]

theorem parsePost_fragment_hit (f : Str) (p : List Str) (n : Int)
    (hf : strContains f (str "post-") = true)
    (hv : pyInt (pyStrip (pyReplaceDel f (str "post-"))) = some n) :
    parsePost f p = .ok (some n) := by
  unfold parsePost
  rw [List.find?_cons_of_pos _ (by simp [hf])]
  simp only []
  rw [hv]

theorem parsePost_nil_fragment (p : List Str)
    (hpost : ∀ sec ∈ p, strContains sec (str "post-") = true →
       (pyInt (pyStrip (pyReplaceDel sec (str "post-")))).isSome) :
    ∃ pn, parsePost [] p = .ok pn := by
  unfold parsePost
  cases hf : ([] :: p).find? (fun sec => strContains sec (str "post-")) with
  | none => exact ⟨none, rfl⟩
  | some s =>
    have hs : strContains s (str "post-") = true := by
      have := List.find?_some hf
      simpa using this
    have hmem : s ∈ ([] : Str) :: p := List.mem_of_find?_eq_some hf
    rcases List.mem_cons.1 hmem with rfl | hmem
    · exact absurd hs (by decide)
    · obtain ⟨m, hm⟩ := Option.isSome_iff_exists.mp (hpost s hmem hs)
      refine ⟨some m, ?_⟩
      simp only []
      rw [hm]

theorem fromParts_ok_inv (host : Str) (parts : List Str) (f q : Str)
    (t : ForumThread) (h : fromParts host parts f q = .ok t) :
    ¬ (host = [] ∨ ¬ (THREAD_PARTS.any fun p => parts.contains p)) ∧
    ∃ name0, parts.get? (nameIndex parts) = some name0 ∧
      strContains name0 (str ".") = true ∧
      parsePost f parts = .ok t.post_number ∧
      parsePage parts (nameIndex parts) = .ok t.page ∧
      parseNameId name0 = .ok (t.name, t.id_) ∧
      t.host = host ∧ t.path_qs = q ∧
      t.thread_path =
        '/' :: List.intercalate ['/'] ((parts.drop 1).take (nameIndex parts)) := by
  unfold fromParts at h
  by_cases hc : host = [] ∨ ¬ (THREAD_PARTS.any fun p => parts.contains p)
  · rw [if_pos hc] at h; simp at h
  · rw [if_neg hc] at h
    refine ⟨hc, ?_⟩
    cases hg : parts.get? (nameIndex parts) with
    | none => rw [hg] at h; simp at h
    | some name0 =>
      rw [hg] at h
      simp only [] at h
      refine ⟨name0, rfl, ?_⟩
      by_cases hdot : strContains name0 (str ".") = false
      · rw [if_pos hdot] at h; simp at h
      · rw [if_neg hdot] at h
        refine ⟨by simpa using hdot, ?_⟩
        cases hp1 : parsePost f parts with
        | error e => rw [hp1] at h; simp at h
        | ok pn1 =>
          rw [hp1] at h
          simp only [] at h
          cases hpg : parsePage parts (nameIndex parts) with
          | error e => rw [hpg] at h; simp at h
          | ok pg =>
            rw [hpg] at h
            simp only [] at h
            cases hni : parseNameId name0 with
            | error e => rw [hni] at h; simp at h
            | ok nmid =>
              rw [hni] at h
              simp only [] at h
              obtain ⟨nm, idv⟩ := nmid
              rw [Except.ok.injEq] at h
              subst h
              exact ⟨rfl, rfl, rfl, rfl, rfl, rfl⟩

theorem fromParts_fragment (host : Str) (parts : List Str) (f1 f2 q : Str)
    (t : ForumThread) (pn2 : Option Int)
    (h1 : fromParts host parts f1 q = .ok t)
    (h2 : parsePost f2 parts = .ok pn2) :
    fromParts host parts f2 q = .ok { t with post_number := pn2 } := by
  unfold fromParts at h1 ⊢
  by_cases hc : host = [] ∨ ¬ (THREAD_PARTS.any fun p => parts.contains p)
  · rw [if_pos hc] at h1; simp at h1
  · rw [if_neg hc] at h1
    rw [if_neg hc]
    cases hg : parts.get? (nameIndex parts) with
    | none => rw [hg] at h1; simp at h1
    | some name0 =>
      rw [hg] at h1
      simp only [] at h1 ⊢
      by_cases hdot : strContains name0 (str ".") = false
      · rw [if_pos hdot] at h1; simp at h1
      · rw [if_neg hdot] at h1
        rw [if_neg hdot, h2]
        simp only [] at h1 ⊢
        cases hp1 : parsePost f1 parts with
        | error e => rw [hp1] at h1; simp at h1
        | ok pn1 =>
          rw [hp1] at h1
          simp only [] at h1
          cases hpg : parsePage parts (nameIndex parts) with
          | error e => rw [hpg] at h1; simp at h1
          | ok pg =>
            rw [hpg] at h1
            simp only [] at h1 ⊢
            cases hni : parseNameId name0 with
            | error e => rw [hni] at h1; simp at h1
            | ok nmid =>
              rw [hni] at h1
              simp only [] at h1 ⊢
              obtain ⟨nm, idv⟩ := nmid
              rw [Except.ok.injEq] at h1
              subst h1
              rfl

theorem pyEq_post_update (t : ForumThread) (pn : Option Int) :
    ForumThread.pyEq t { t with post_number := pn } = true := by
  simp [ForumThread.pyEq, ForumThread.key]

theorem from_url_roundtrip (u : Url) (t : ForumThread)
    (hwf : u.wf)
    (hok : ForumThread.from_url u = .ok t)
    (hpost : ∀ sec ∈ u.parts, strContains sec (str "post-") = true →
      (pyInt (pyStrip (pyReplaceDel sec (str "post-")))).isSome) :
    ∃ t2, ForumThread.from_url t.url = .ok t2 ∧ ForumThread.pyEq t t2 = true := by
  obtain ⟨hwf1, -, -⟩ := hwf
  have hok2 : fromParts u.host u.parts u.fragment u.path_qs = .ok t := hok
  obtain ⟨hc, name0, hg, hdot, hpost1, hpage, hnmid, hhost, hpq, htp⟩ :=
    fromParts_ok_inv _ _ _ _ _ hok2
  have hsegs : parsePathQs t.path_qs = (u.segs, u.query) := by rw [hpq, hwf1]
  have hurl : t.url =
      { host := u.host, segs := u.segs, query := u.query,
        fragment :=
          match t.post_number with
          | some n => if n ≠ 0 then str "post-" ++ pyStr n else []
          | none => [] } := by
    unfold ForumThread.url
    rw [hsegs, hhost]
  cases hpn : t.post_number with
  | none =>
    rw [hpn] at hurl
    simp only [] at hurl
    rw [hpn] at hpost1
    have hall := parsePost_none_inv _ _ hpost1
    have hp2 : parsePost [] u.parts = .ok none := by
      apply parsePost_no_candidates
      intro sec hs
      rcases List.mem_cons.1 hs with rfl | hs
      · decide
      · exact hall sec (List.mem_cons_of_mem _ hs)
    refine ⟨{ t with post_number := none }, ?_, pyEq_post_update t none⟩
    have hstep : ForumThread.from_url t.url =
        fromParts u.host u.parts [] u.path_qs := by
      rw [hurl]
      rfl
    rw [hstep]
    exact fromParts_fragment _ _ _ _ _ _ _ hok2 hp2
  | some n =>
    rw [hpn] at hurl
    simp only [] at hurl
    by_cases hn : n = 0
    · subst hn
      rw [if_neg (by simp)] at hurl
      obtain ⟨pn2, hp2⟩ := parsePost_nil_fragment u.parts hpost
      refine ⟨{ t with post_number := pn2 }, ?_, pyEq_post_update t pn2⟩
      have hstep : ForumThread.from_url t.url =
          fromParts u.host u.parts [] u.path_qs := by
        rw [hurl]
        rfl
      rw [hstep]
      exact fromParts_fragment _ _ _ _ _ _ _ hok2 hp2
    · rw [if_pos hn] at hurl
      have hp2 : parsePost (str "post-" ++ pyStr n) u.parts = .ok (some n) := by
        apply parsePost_fragment_hit _ _ _ (strContains_append_left _ _)
        rw [pyReplaceDel_post_pyStr, pyStrip_pyStr, pyInt_pyStr]
      refine ⟨{ t with post_number := some n }, ?_, pyEq_post_update t (some n)⟩
      have hstep : ForumThread.from_url t.url =
          fromParts u.host u.parts (str "post-" ++ pyStr n) u.path_qs := by
        rw [hurl]
        rfl
      rw [hstep]
      exact fromParts_fragment _ _ _ _ _ _ _ hok2 hp2

theorem parseNameId_not_two (name0 : Str)
    (h : (splitOnChar '.' name0).length ≠ 2) :
    parseNameId name0 = .error .valueError := by
  unfold parseNameId
  cases hsp : splitOnChar '.' name0 with
  | nil => rfl
  | cons a t1 =>
    cases t1 with
    | nil => rfl
    | cons b t2 =>
      cases t2 with
      | nil =>
        rw [hsp] at h
        simp at h
      | cons c t3 => rfl

theorem parseNameId_two_bad (name0 a b : Str)
    (hsp : splitOnChar '.' name0 = [a, b])
    (hbad : pyInt (pyStrip b) = none) :
    parseNameId name0 = .error .valueError := by
  unfold parseNameId
  rw [hsp]
  simp only []
  rw [hbad]

theorem parseNameId_ok_inv (name0 : Str) (nm : Str) (idv : Int)
    (h : parseNameId name0 = .ok (nm, idv)) :
    ∃ a b, splitOnChar '.' name0 = [a, b] ∧ nm = pyStrip a ∧
      pyInt (pyStrip b) = some idv := by
  unfold parseNameId at h
  split at h
  next a b heq =>
    cases hv : pyInt (pyStrip b) with
    | none => rw [hv] at h; simp at h
    | some k =>
      rw [hv] at h
      simp only [] at h
      rw [Except.ok.injEq, Prod.mk.injEq] at h
      exact ⟨a, b, heq, h.1.symm, by rw [hv, h.2]⟩
  next heq => simp at h

theorem fromParts_of_nameId_bad (host : Str) (parts : List Str) (f q : Str)
    (hhost : host ≠ [])
    (hmark : (THREAD_PARTS.any fun p => parts.contains p) = true)
    (name0 : Str) (hg : parts.get? (nameIndex parts) = some name0)
    (hdot : strContains name0 (str ".") = true)
    (hni : parseNameId name0 = .error .valueError) :
    fromParts host parts f q = .error .valueError := by
  have hcond : ¬ (host = [] ∨
      ¬ (THREAD_PARTS.any fun p => parts.contains p)) :=
    fun hor => hor.elim (fun hl => hhost hl) (fun hr => hr hmark)
  unfold fromParts
  rw [if_neg hcond, hg]
  simp only []
  rw [if_neg (by simp [hdot])]
  cases hp : parsePost f parts with
  | error e =>
    simp only []
    rw [parsePost_error _ _ _ hp]
  | ok pn =>
    simp only []
    cases hpg : parsePage parts (nameIndex parts) with
    | error e =>
      simp only []
      rw [parsePage_error _ _ _ hpg]
    | ok pg =>
      simp only []
      rw [hni]

theorem find?_eq_head_filter (p : Str → Bool) (l : List Str) :
    l.find? p = (l.filter p).head? := by
  induction l with
  | nil => rfl
  | cons a t ih =>
    by_cases ha : p a = true
    · rw [List.find?_cons_of_pos _ ha, List.filter_cons_of_pos ha, List.head?_cons]
    · rw [List.find?_cons_of_neg _ (by simp_all),
          List.filter_cons_of_neg (by simp_all), ih]

theorem parsePost_ok_none_iff (f : Str) (p : List Str) :
    parsePost f p = .ok none ↔
      (f :: p).find? (fun sec => strContains sec (str "post-")) = none := by
  constructor
  · intro h
    exact List.find?_eq_none.mpr fun x hx => by
      simp [parsePost_none_inv f p h x hx]
  · intro h
    unfold parsePost
    rw [h]

theorem pySort_perm_eq (l1 l2 : List Str) (h : l1.Perm l2) :
    pySort l1 = pySort l2 := by
  apply List.eq_of_perm_of_sorted
    (r := fun a b : Str => a ≤ b)
  · exact (List.perm_insertionSort _ l1).trans
      (h.trans (List.perm_insertionSort _ l2).symm)
  · exact List.sorted_insertionSort _ l1
  · exact List.sorted_insertionSort _ l2

theorem save_other_urls_spec (origin : Url) (urls : List Str) (date : Str)
    (st : St) :
    (save_other_urls origin urls date st).1.forum = st.forum ∧
    (save_other_urls origin urls date st).1.cache = st.cache ∧
    (save_other_urls origin urls date st).2 = 0 := by
  unfold save_other_urls
  have key : ∀ (l : List Str) (s : St),
      (l.foldl (fun s url =>
        { s with other := (insertOther s.other
            { origin := origin.toStr, url := url, date := date }).1 }) s).forum
        = s.forum ∧
      (l.foldl (fun s url =>
        { s with other := (insertOther s.other
            { origin := origin.toStr, url := url, date := date }).1 }) s).cache
        = s.cache := by
    intro l
    induction l with
    | nil => exact fun s => ⟨rfl, rfl⟩
    | cons a t ih =>
      intro s
      rw [List.foldl_cons]
      exact ih _
  refine ⟨(key _ _).1, (key _ _).2, ?_⟩
  simp only [(key _ _).2, Nat.sub_self]

theorem from_url_not_thread (u : Url)
    (h : u.host = [] ∨ (u.parts.contains (str "threads") = false ∧
        u.parts.contains (str "topic") = false)) :
    ForumThread.from_url u = .error .valueError := by
  show fromParts u.host u.parts u.fragment u.path_qs = .error .valueError
  unfold fromParts
  rw [if_pos ?_]
  rcases h with h | ⟨h1, h2⟩
  · exact Or.inl h
  · refine Or.inr ?_
    simp [THREAD_PARTS]
    exact ⟨by simpa using h1, by simpa using h2⟩

theorem save_forum_fold_cache (ft : ForumThread) (date : Str) :
    ∀ (l : List Str) (st : St), l.Nodup →
      ((l.foldl (fun s url =>
        if (ft.key, url) ∈ s.cache then s
        else
          { s with
            forum := (insertForum s.forum
              { host := ft.host, name := ft.name, id_ := ft.id_, page := ft.page,
                post := ft.post_number, path_qs := ft.path_qs, url := url,
                date := date }).1,
            cache := cacheAdd s.cache (ft.key, url) }) st).cache.length
       = st.cache.length +
         (l.filter fun url => decide ((ft.key, url) ∉ st.cache)).length) := by
  intro l
  induction l with
  | nil =>
    intro st _
    simp
  | cons u t ih =>
    intro st hnd
    obtain ⟨hu, ht⟩ := List.nodup_cons.mp hnd
    rw [List.foldl_cons]
    by_cases hmem : (ft.key, u) ∈ st.cache
    · rw [if_pos hmem, ih st ht, List.filter_cons]
      simp [hmem]
    · rw [if_neg hmem]
      have hca : cacheAdd st.cache (ft.key, u) = st.cache ++ [(ft.key, u)] := by
        unfold cacheAdd
        rw [if_neg hmem]
      rw [ih _ ht]
      have hflt : (t.filter fun url =>
            decide ((ft.key, url) ∉ cacheAdd st.cache (ft.key, u))).length
          = (t.filter fun url => decide ((ft.key, url) ∉ st.cache)).length := by
        congr 1
        apply List.filter_congr
        intro x hx
        have hxu : ¬ x = u := fun he => hu (he ▸ hx)
        rw [decide_eq_decide]
        rw [hca]
        simp [List.mem_append, hxu]
      simp only [] at hflt ⊢
      have hcount : ((u :: t).filter fun url =>
            decide ((ft.key, url) ∉ st.cache)).length
          = 1 + (t.filter fun url => decide ((ft.key, url) ∉ st.cache)).length := by
        rw [List.filter_cons_of_pos (by simp [hmem])]
        rw [List.length_cons]
        omega
      rw [hflt, hcount, hca, List.length_append]
      simp
      omega

theorem save_forum_newUrlCount (ft : ForumThread) (urls : List Str)
    (date : Str) (st : St) (hnd : urls.Nodup) :
    (save_forum_thread_urls ft urls date st).2 =
      (urls.filter fun url => decide ((ft.key, url) ∉ st.cache)).length := by
  unfold save_forum_thread_urls
  have hnd2 : (pySort urls).Nodup :=
    ((List.perm_insertionSort _ urls).nodup_iff).mpr hnd
  simp only []
  rw [save_forum_fold_cache ft date (pySort urls) st hnd2,
      Nat.add_sub_cancel_left]
  exact ((List.perm_insertionSort _ urls).filter _).length_eq

theorem length_filter_split (p : Str → Bool) (l : List Str) :
    (l.filter fun x => !(p x)).length = l.length - (l.filter p).length := by
  induction l with
  | nil => rfl
  | cons a t ih =>
    have hle : (t.filter p).length ≤ t.length := List.length_filter_le p t
    by_cases ha : p a = true
    · simp [List.filter_cons, ha]
      omega
    · have ha2 : p a = false := by simpa using ha
      simp [List.filter_cons, ha2]
      omega

/-- The forum half of the submission counter: for a set of distinct URLs,
the returned count is the number submitted minus the number already
cached for that thread identity. -/
theorem save_forum_count_sub (ft : ForumThread) (urls : List Str)
    (date : Str) (st : St) (hnd : urls.Nodup) :
    (save_forum_thread_urls ft urls date st).2 =
      urls.length -
        (urls.filter fun url => decide ((ft.key, url) ∈ st.cache)).length := by
  rw [save_forum_newUrlCount ft urls date st hnd,
      ← length_filter_split (fun url => decide ((ft.key, url) ∈ st.cache)) urls]
  congr 1
  apply List.filter_congr
  intro x _
  simp

/-! ## Claim theorems -/

/-- C1: the claim states that retrieval with a page returns exactly the
URLs stored under that thread identity and page, and retrieval without a
page the union across pages.  The code cannot do either: the SELECT of
`_get_forum_thread_urls` references a column `path` that does not exist
in the `forum_threads` schema created by `init_db` (and binds
`(host, name, id)` against the placeholders `(host, path, name)`; with a
page it binds the whole six-element `as_tuple` against four
placeholders), so sqlite raises `OperationalError` on every forum-thread
retrieval — here evaluated on a state holding a row that a page-2
retrieval should have returned. -/
theorem claim_C1 :
    ForumThread.from_url exThreadBare =
      .ok { host := str "f.com", name := str "a", id_ := 1, page := 1,
            thread_path := str "/threads/a.1", post_number := none,
            path_qs := str "/threads/a.1" } ∧
    get_urls_by_origin exThreadBare (some 2) exSt = .error .operationalError ∧
    get_urls_by_origin exThreadBare none exSt = .error .operationalError ∧
    retrieve_data exThreadBare (some 2) exSt = .error .operationalError :=
  ⟨rfl, rfl, rfl, rfl⟩

/-- C2: the claim states `newUrlCount = 1` then `0` for a repeated
`(origin, url)` submission for every origin, thread or generic.  For a
generic origin the code always returns 0: `_save_other_urls` computes its
count as the growth of the in-memory `all_urls` set but never adds
generic pairs to it.  Evaluated here: the first submission of a fresh URL
for a generic origin stores the row yet reports 0 new URLs (the second
reports 0 as well). -/
theorem claim_C2 :
    ForumThread.from_url exGeneric = .error .valueError ∧
    save_data exGeneric [exUrlA] exDate emptySt =
      .ok ({ forum := [],
             other := [{ origin := exGeneric.toStr, url := exUrlA,
                         date := exDate }],
             cache := [] }, 0) ∧
    save_data exGeneric [exUrlA] exDate
        { forum := [],
          other := [{ origin := exGeneric.toStr, url := exUrlA,
                      date := exDate }],
          cache := [] } =
      .ok ({ forum := [],
             other := [{ origin := exGeneric.toStr, url := exUrlA,
                         date := exDate }],
             cache := [] }, 0) :=
  ⟨rfl, rfl, rfl⟩

/-- C3 counterexample: `tC3a` and `tC3b` are the parses of
`https://h/threads/a.1` and `https://h/f/threads/a.1`; they agree on
`(host, name, id, page)` yet the dataclass equality distinguishes them,
because `thread_path` is also a compared field — refuting the claim that
equality holds iff `(host, name, id, page)` match. -/
theorem claim_C3_counterexample :
    ForumThread.from_url uC3a = .ok tC3a ∧
    ForumThread.from_url uC3b = .ok tC3b ∧
    tC3a.host = tC3b.host ∧ tC3a.name = tC3b.name ∧ tC3a.id_ = tC3b.id_ ∧
    tC3a.page = tC3b.page ∧
    ForumThread.pyEq tC3a tC3b = false :=
  ⟨rfl, rfl, rfl, rfl, rfl, rfl, rfl⟩

/-- C3 (amended): two `ForumThread` values are equal under the dataclass
equality (and share their hash key) iff `(host, name, id, page,
threadPath)` all match; `postNumber` and `pathQs` never affect equality
or the hash key. -/
theorem claim_C3 : ∀ t1 t2 : ForumThread,
    (ForumThread.pyEq t1 t2 = true ↔
      (t1.host = t2.host ∧ t1.name = t2.name ∧ t1.id_ = t2.id_ ∧
       t1.page = t2.page ∧ t1.thread_path = t2.thread_path)) ∧
    (∀ p q, ForumThread.pyEq { t1 with post_number := p, path_qs := q } t2 =
        ForumThread.pyEq t1 t2 ∧
      ({ t1 with post_number := p, path_qs := q }).key = t1.key) := by
  intro t1 t2
  constructor
  · simp [ForumThread.pyEq, ForumThread.key, Prod.ext_iff]
  · intro p q
    exact ⟨rfl, rfl⟩

/-- C4 counterexample: `exPostZero` is a well-formed thread URL (marker
segment followed by `name.id`) that parses successfully, to an identity
with `postNumber = 0`; because `0` is falsy, `ForumThread.url` attaches
no fragment, and re-parsing the canonical URL picks up the unparsable
path segment `xpost-y` as the only `post-` candidate and fails with
`ValueError` — refuting round-trip re-parsing as claimed. -/
theorem claim_C4_counterexample :
    Url.wf exPostZero ∧
    ForumThread.from_url exPostZero = .ok tPostZero ∧
    ForumThread.from_url tPostZero.url = .error .valueError :=
  ⟨by decide, rfl, rfl⟩

/-- C4 (amended): for every well-formed thread URL that parses, parsing
is a function of the URL (deterministic in this model — Python scans the
set `{fragment, *parts}` in unspecified order, so determinism across
runs holds only up to the choice among several `post-` candidates), and
provided every path segment containing `post-` parses to an integer
after stripping `post-`, re-parsing the canonical URL reconstructed by
`ForumThread.url` succeeds and yields an identity equal to the original
(only the informational, non-compared `postNumber`/`pathQs` can
differ). -/
theorem claim_C4 (u : Url) (t : ForumThread)
    (hwf : u.wf)
    (hok : ForumThread.from_url u = .ok t)
    (hpost : ∀ sec ∈ u.parts, strContains sec (str "post-") = true →
      (pyInt (pyStrip (pyReplaceDel sec (str "post-")))).isSome) :
    ∃ t2, ForumThread.from_url t.url = .ok t2 ∧
      ForumThread.pyEq t t2 = true :=
  from_url_roundtrip u t hwf hok hpost

/-- C4 witness: the round trip holds at the spec's worked example. -/
theorem claim_C4_witness :
    ∃ t2, ForumThread.from_url tEx.url = .ok t2 ∧
      ForumThread.pyEq tEx t2 = true :=
  claim_C4 exThread tEx (by decide) rfl (by decide)

/-- C5 counterexample: the name segment `a.b.1` contains a `.` and the
claim says it still classifies as a thread (name `a.b`, id `1`); in the
code `name.rsplit(".")` has no maxsplit, the three pieces fail the
two-element unpack, and the URL is rejected with `ValueError`
(NotAThread). -/
theorem claim_C5_counterexample :
    strContains (str "a.b.1") (str ".") = true ∧
    splitOnChar '.' (str "a.b.1") = [str "a", str "b", str "1"] ∧
    ForumThread.from_url exMultiDot = .error .valueError :=
  ⟨rfl, rfl, rfl⟩

/-- C5 (amended): for a candidate thread URL (non-empty host, marker
present, name segment exists and contains `.`), the name segment is
split on every `.`: classification succeeds only when that yields
exactly two pieces — trimmed name and trimmed integer id; more than one
`.`, like a missing `.` or a non-integer id, is reported as
classification failure (`ValueError`, the NotAThread signal), never a
crash. -/
theorem claim_C5 (u : Url) (name0 : Str)
    (hhost : u.host ≠ [])
    (hmark : (THREAD_PARTS.any fun p => u.parts.contains p) = true)
    (hg : u.parts.get? (nameIndex u.parts) = some name0)
    (hdot : strContains name0 (str ".") = true) :
    ((splitOnChar '.' name0).length ≠ 2 →
       ForumThread.from_url u = .error .valueError) ∧
    (∀ a b, splitOnChar '.' name0 = [a, b] → pyInt (pyStrip b) = none →
       ForumThread.from_url u = .error .valueError) ∧
    (∀ t, ForumThread.from_url u = .ok t →
       ∃ a b, splitOnChar '.' name0 = [a, b] ∧ t.name = pyStrip a ∧
         pyInt (pyStrip b) = some t.id_) := by
  refine ⟨?_, ?_, ?_⟩
  · intro hlen
    exact fromParts_of_nameId_bad _ _ _ _ hhost hmark name0 hg hdot
      (parseNameId_not_two _ hlen)
  · intro a b hsp hbad
    exact fromParts_of_nameId_bad _ _ _ _ hhost hmark name0 hg hdot
      (parseNameId_two_bad _ _ _ hsp hbad)
  · intro t hok
    obtain ⟨-, name0x, hgx, -, -, -, hni, -, -, -⟩ :=
      fromParts_ok_inv u.host u.parts u.fragment u.path_qs t hok
    rw [hg] at hgx
    rw [Option.some.injEq] at hgx
    rw [← hgx] at hni
    exact parseNameId_ok_inv _ _ _ hni

/-- C5 witness: at the multi-dot name segment the amended claim reports
NotAThread. -/
theorem claim_C5_witness :
    ForumThread.from_url exMultiDot = .error .valueError :=
  (claim_C5 exMultiDot (str "a.b.1") (by decide) (by decide) (by decide)
    (by decide)).1 (by decide)

/-- C6: for every URL that classifies as a forum thread, `postNumber` is
`None` exactly when no section (fragment or path part) contains
`post-`; and when the scan selects a candidate section (the head of
`postCandidates`, unique whenever at most one section contains `post-`),
`postNumber` is the integer obtained from that section by deleting
`post-` and stripping whitespace — in particular a fragment or segment
`post-42` yields 42. -/
theorem claim_C6 (u : Url) (t : ForumThread)
    (hok : ForumThread.from_url u = .ok t) :
    (postCandidates u = [] ↔ t.post_number = none) ∧
    (∀ s, (postCandidates u).head? = some s →
      t.post_number = pyInt (pyStrip (pyReplaceDel s (str "post-")))) := by
  obtain ⟨-, name0, -, -, hpost1, -, -, -, -, -⟩ :=
    fromParts_ok_inv u.host u.parts u.fragment u.path_qs t hok
  constructor
  · constructor
    · intro hc
      have hfind : (u.fragment :: u.parts).find?
          (fun sec => strContains sec (str "post-")) = none := by
        rw [find?_eq_head_filter]
        show (postCandidates u).head? = none
        rw [hc]
        rfl
      have hnone : parsePost u.fragment u.parts = .ok none :=
        (parsePost_ok_none_iff _ _).mpr hfind
      rw [hpost1] at hnone
      rw [Except.ok.injEq] at hnone
      exact hnone
    · intro hn
      rw [hn] at hpost1
      have hfind := (parsePost_ok_none_iff _ _).mp hpost1
      rw [find?_eq_head_filter] at hfind
      exact List.head?_eq_none_iff.mp hfind
  · intro s hs
    have hfind : (u.fragment :: u.parts).find?
        (fun sec => strContains sec (str "post-")) = some s := by
      rw [find?_eq_head_filter]
      exact hs
    unfold parsePost at hpost1
    rw [hfind] at hpost1
    simp only [] at hpost1
    cases hv : pyInt (pyStrip (pyReplaceDel s (str "post-"))) with
    | none => rw [hv] at hpost1; simp at hpost1
    | some m =>
      rw [hv] at hpost1
      simp only [] at hpost1
      rw [Except.ok.injEq] at hpost1
      exact hpost1.symm

/-- C6 witness: at the spec's worked example (fragment `post-99`) the
extracted `postNumber` is the stripped integer of the sole candidate. -/
theorem claim_C6_witness :
    tEx.post_number =
      pyInt (pyStrip (pyReplaceDel (str "post-99") (str "post-"))) :=
  (claim_C6 exThread tEx rfl).2 (str "post-99") (by decide)

/-- C7: forum rows are deduplicated by the storage key
`(host, name, page, url)` — `id` is not part of it, so a row that agrees
on those four fields conflicts even with a different `id` — and generic
rows by `(origin, url)`; `INSERT OR IGNORE` under those UNIQUE
constraints silently skips a conflicting row (no error, table unchanged,
`inserted = false`). -/
theorem claim_C7 :
    (∀ (tbl : List FRow) (r dup : FRow), dup ∈ tbl →
      dup.host = r.host → dup.name = r.name → dup.page = r.page →
      dup.url = r.url → insertForum tbl r = (tbl, false)) ∧
    (∀ (tbl : List ORow) (s dup : ORow), dup ∈ tbl →
      dup.origin = s.origin → dup.url = s.url →
      insertOther tbl s = (tbl, false)) := by
  constructor
  · intro tbl r dup hmem h1 h2 h3 h4
    unfold insertForum
    rw [if_pos (List.any_eq_true.mpr ⟨dup, hmem, by simp [h1, h2, h3, h4]⟩)]
  · intro tbl s dup hmem h1 h2
    unfold insertOther
    rw [if_pos (List.any_eq_true.mpr ⟨dup, hmem, by simp [h1, h2]⟩)]

/-- C7 witness: `exRowOtherId` differs from the stored `exRow` only in
`id` (and metadata), yet its insert is silently ignored and the table is
unchanged; same for a duplicate generic row. -/
theorem claim_C7_witness :
    insertForum [exRow] exRowOtherId = ([exRow], false) ∧
    insertOther [exORow] exORow = ([exORow], false) :=
  ⟨claim_C7.1 [exRow] exRowOtherId exRow (by decide) (by decide) (by decide)
      (by decide) (by decide),
   claim_C7.2 [exORow] exORow exORow (by decide) (by decide) (by decide)⟩

/-- C8: an origin with an empty host or whose path holds neither a
`threads` nor a `topic` segment is handled entirely through the generic
table: `from_url` raises `ValueError`, both handlers catch it, submit
routes to `_save_other_urls` (leaving the forum table and the cache
untouched) and retrieve to `_get_other_urls`, and no exception reaches
the caller. -/
theorem claim_C8 (origin : Url) (urls : List Str) (date : Str) (st : St)
    (page : Option Int)
    (h : origin.host = [] ∨ (origin.parts.contains (str "threads") = false ∧
        origin.parts.contains (str "topic") = false)) :
    save_data origin urls date st = .ok (save_other_urls origin urls date st) ∧
    (save_other_urls origin urls date st).1.forum = st.forum ∧
    (save_other_urls origin urls date st).1.cache = st.cache ∧
    get_urls_by_origin origin page st = .ok (get_other_urls origin st) := by
  have hfu := from_url_not_thread origin h
  refine ⟨?_, (save_other_urls_spec origin urls date st).1,
    (save_other_urls_spec origin urls date st).2.1, ?_⟩
  · unfold save_data
    rw [hfu]
  · unfold get_urls_by_origin
    rw [hfu]

/-- C8 witness: the generic origin `https://example.com/links` routes
through the generic save path. -/
theorem claim_C8_witness :
    save_data exGeneric [exUrlA] exDate emptySt =
      .ok (save_other_urls exGeneric [exUrlA] exDate emptySt) :=
  (claim_C8 exGeneric [exUrlA] exDate emptySt (some 1) (by decide)).1

/-- C9: submit is order-insensitive — for two URL lists that are
permutations of each other, `save_data` from the same state returns the
same count and the same final state, because the URL list is sorted
before processing (and the handlers are otherwise deterministic
functions of the sorted list and the state). -/
theorem claim_C9 (origin : Url) (urls1 urls2 : List Str) (date : Str)
    (st : St) (h : urls1.Perm urls2) :
    save_data origin urls1 date st = save_data origin urls2 date st := by
  have hs := pySort_perm_eq _ _ h
  unfold save_data save_forum_thread_urls save_other_urls
  rw [hs]

/-- C9 witness: swapping two URLs leaves the submission outcome
unchanged. -/
theorem claim_C9_witness :
    save_data exGeneric [exUrlA, exUrlB] exDate emptySt =
      save_data exGeneric [exUrlB, exUrlA] exDate emptySt :=
  claim_C9 exGeneric [exUrlA, exUrlB] [exUrlB, exUrlA] exDate emptySt
    (by decide)

/-- C10: FastAPI's `Query(1, ge=1)` substitutes `page = 1` when the
caller omits the parameter and admits only values of at least 1, so the
`/retrieve` handler always calls `get_urls_by_origin` with a truthy
page; the page-scoped query shape (WHERE columns including `page`) is
therefore the only one reachable from the endpoint, and the cross-page
(no-page) branch of `_get_forum_thread_urls` is unreachable from it. -/
theorem claim_C10 (pageParam : Option Int)
    (h : ∀ k, pageParam = some k → 1 ≤ k) :
    (∀ (origin : Url) (st : St), retrieve_data origin pageParam st =
       get_urls_by_origin origin (some (pageParam.getD 1)) st) ∧
    (pageParam = none → pageParam.getD 1 = 1) ∧
    pageTruthy (some (pageParam.getD 1)) = true ∧
    gftuCols (pageTruthy (some (pageParam.getD 1))) =
      [str "host", str "path", str "name", str "page"] := by
  have ht : pageTruthy (some (pageParam.getD 1)) = true := by
    cases pageParam with
    | none => rfl
    | some k =>
      have hk := h k rfl
      simp only [Option.getD_some, pageTruthy, decide_eq_true_eq]
      omega
  refine ⟨fun origin st => rfl, fun hp => by rw [hp]; rfl, ht, by rw [ht]; rfl⟩

/-- C10 witness: with the parameter omitted the endpoint queries page 1,
a truthy page, with the page-scoped WHERE columns. -/
theorem claim_C10_witness :
    pageTruthy (some ((none : Option Int).getD 1)) = true ∧
    gftuCols (pageTruthy (some ((none : Option Int).getD 1))) =
      [str "host", str "path", str "name", str "page"] :=
  ⟨(claim_C10 none (fun k hk => by cases hk)).2.2.1,
   (claim_C10 none (fun k hk => by cases hk)).2.2.2⟩

/-- C3 witness: changing `postNumber` and `pathQs` of a concrete identity
leaves its equality behaviour and hash key unchanged. -/
theorem claim_C3_witness :
    ForumThread.pyEq { tC3a with post_number := some 5, path_qs := [] } tC3a =
      ForumThread.pyEq tC3a tC3a ∧
    ({ tC3a with post_number := some 5, path_qs := [] }).key = tC3a.key :=
  (claim_C3 tC3a tC3a).2 (some 5) []
